import Mathlib

/-!
Shallow embedding of the bacon process-supervisor core: the task executor
machinery of `executor.rs` (readers, supervisor, kill fallback), the watcher
change filter and orchestration loop of `app.rs`, and the export entry point
of `export_settings.rs`.  Effectful Rust is modelled by explicit inputs:
reads from a stream become a list of read outcomes, channel sends take a
success oracle, and process operations (spawn, wait, try_wait) take their
result as a parameter.
-/

namespace Bacon

/-- Model of `std::process::ExitStatus` as the raw status code;
`success()` holds exactly for code 0. -/
structure ExitStatus where
  code : Int
deriving DecidableEq, Repr

def ExitStatus.success (s : ExitStatus) : Bool := s.code == 0

/-- Origin of a command output line (`CommandStream`). -/
inductive CommandStream
  | stdOut
  | stdErr
deriving DecidableEq, Repr

/-- One line of output with its origin (`CommandOutputLine`); the `TLine`
content produced by `TLine::from_tty` is abstracted to the raw string. -/
structure CommandOutputLine where
  content : String
  origin : CommandStream
deriving DecidableEq, Repr

/-- Items of the executor's output channel (`CommandExecInfo`). -/
inductive CommandExecInfo
  | Line (l : CommandOutputLine)
  | End (status : Option ExitStatus)
  | Error (msg : String)
  | Interruption
deriving DecidableEq, Repr

/-- Terminal events are everything but `Line`. -/
def CommandExecInfo.isTerminal : CommandExecInfo → Bool
  | .Line _ => false
  | _ => true

def CommandExecInfo.isLine : CommandExecInfo → Bool
  | .Line _ => true
  | _ => false

/-- Messages of the single-slot control channel (`StopMessage`). -/
inductive StopMessage
  | SendStatus
  | Kill
deriving DecidableEq, Repr

/-- Outcome of one `read_line` call on a piped stream: an error (logged,
reading continues), end of stream (`Ok(0)`), or one line. -/
inductive ReadEvent
  | fail (msg : String)
  | eof
  | line (s : String)
deriving DecidableEq, Repr

def ReadEvent.isEof : ReadEvent → Bool
  | .eof => true
  | _ => false

/-- The stdout reader loop (executor.rs 127-150) over a list of read
outcomes.  `sendOk n` tells whether the n-th send on the line channel
succeeds (a failed send means the channel is closed and the reader breaks).
Returns the events delivered to the line channel and the messages delivered
to the control channel (always none: stdout end-of-stream stops silently). -/
def stdoutReaderRun (sendOk : Nat → Bool) :
    List ReadEvent → Nat → List CommandExecInfo × List StopMessage
  | [], _ => ([], [])
  | .fail _ :: rest, n => stdoutReaderRun sendOk rest n
  | .eof :: _, _ => ([], [])
  | .line s :: rest, n =>
    if sendOk n then
      let r := stdoutReaderRun sendOk rest (n + 1)
      (.Line ⟨s, .stdOut⟩ :: r.1, r.2)
    else ([], [])

/-- The stderr reader loop (executor.rs 158-183).  On end-of-stream it sends
`SendStatus` on the control channel (`stopSendOk` models that send's
success) and breaks; a failed line send breaks without any control
message. -/
def stderrReaderRun (sendOk : Nat → Bool) (stopSendOk : Bool) :
    List ReadEvent → Nat → List CommandExecInfo × List StopMessage
  | [], _ => ([], [])
  | .fail _ :: rest, n => stderrReaderRun sendOk stopSendOk rest n
  | .eof :: _, _ => ([], if stopSendOk then [.SendStatus] else [])
  | .line s :: rest, n =>
    if sendOk n then
      let r := stderrReaderRun sendOk stopSendOk rest (n + 1)
      (.Line ⟨s, .stdErr⟩ :: r.1, r.2)
    else ([], [])

/-- Oracle environment for one execution of the custom kill command
(`run_kill_command`): whether the kill process spawns, the result of
waiting on it, and whether the final `child.wait()` succeeds. -/
structure KillCmdEnv where
  spawnOk : Bool
  procWait : Except Unit ExitStatus
  childWaitOk : Bool
deriving Repr

/-- The error cases of `run_kill_command`; `invalidInput` is the
`io::ErrorKind::InvalidInput` returned for an empty kill command. -/
inductive KillCmdError
  | invalidInput
  | spawnFailed
  | waitFailed
  | nonzeroStatus (st : ExitStatus)
  | childWaitFailed
deriving DecidableEq, Repr

/-- What one call of `run_kill_command` did: the `(exe, args)` actually
spawned, if a spawn was attempted, and the overall result. -/
structure KillCmdRun where
  spawned : Option (String × List String)
  result : Except KillCmdError Unit
deriving Repr

/-- Model of `run_kill_command` (executor.rs 232-252): split the configured
argv, append the child's PID as the final argument, spawn and wait on the
kill process, require a zero exit status, then reap the child. -/
def run_kill_command (env : KillCmdEnv) (kill_command : List String)
    (childId : Nat) : KillCmdRun :=
  match kill_command with
  | [] => ⟨none, .error .invalidInput⟩
  | exe :: args =>
    let argv := args ++ [toString childId]
    if !env.spawnOk then ⟨some (exe, argv), .error .spawnFailed⟩
    else
      match env.procWait with
      | .error _ => ⟨some (exe, argv), .error .waitFailed⟩
      | .ok st =>
        if !st.success then ⟨some (exe, argv), .error (.nonzeroStatus st)⟩
        else if !env.childWaitOk then ⟨some (exe, argv), .error .childWaitFailed⟩
        else ⟨some (exe, argv), .ok ()⟩

/-- Which mechanism terminated the child. -/
inductive KillMethod
  | customCommand
  | defaultKill
deriving DecidableEq, Repr

/-- Model of `kill` (executor.rs 218-230): try the custom kill command when
configured; on its absence or any failure fall back to `child.kill()`.
The default kill is treated as unconditionally successful (the source
`expect`s it: the target platform is assumed able to kill a process it
spawned), so `kill` always returns. -/
def kill (env : KillCmdEnv) (kill_command : Option (List String))
    (childId : Nat) : KillMethod :=
  match kill_command with
  | some kc =>
    match (run_kill_command env kc childId).result with
    | .ok _ => .customCommand
    | .error _ => .defaultKill
  | none => .defaultKill

/-- What the supervisor tail of the task thread did: the events it delivered
to the line channel, the kill method used if it killed the child, and
whether the final reaping `child.wait()` was performed. -/
structure SupervisorRun where
  events : List CommandExecInfo
  killMethod : Option KillMethod
  reapAttempted : Bool
deriving DecidableEq, Repr

/-- The supervisor tail of the task thread (executor.rs 186-206): one
blocking receive on the control channel, then the final reaping wait.
`stop = none` models the receive returning an error (all senders dropped),
which is handled like `Kill`.  `tryWait` is the result of
`child.try_wait()`; an `End` is published only when it returns `Ok`, and
`lineSendOk` models that send's success (its result is discarded). -/
def supervisorRun (stop : Option StopMessage)
    (tryWait : Except Unit (Option ExitStatus)) (lineSendOk : Bool)
    (env : KillCmdEnv) (kill_command : Option (List String)) (childId : Nat) :
    SupervisorRun :=
  match stop with
  | some .SendStatus =>
    match tryWait with
    | .ok status => ⟨if lineSendOk then [.End status] else [], none, true⟩
    | .error _ => ⟨[], none, true⟩
  | some .Kill => ⟨[], some (kill env kill_command childId), true⟩
  | none => ⟨[], some (kill env kill_command childId), true⟩

/-- The inputs of one task thread run, bundling the read outcomes of both
streams and the oracles for every channel and process operation. -/
structure ThreadEnv where
  stdoutReads : List ReadEvent
  stderrReads : List ReadEvent
  stdoutSendOk : Nat → Bool
  stderrSendOk : Nat → Bool
  stopSendOk : Bool
  stop : Option StopMessage
  tryWait : Except Unit (Option ExitStatus)
  lineSendOk : Bool
  killEnv : KillCmdEnv
  kill_command : Option (List String)
  childId : Nat

/-- Observable outcome of one task thread run. -/
structure ThreadOutcome where
  stdoutReaderStarted : Bool
  stderrReaderStarted : Bool
  stdoutEvents : List CommandExecInfo
  stderrEvents : List CommandExecInfo
  supervisorEvents : List CommandExecInfo
  stopConsumed : Bool
  killMethod : Option KillMethod
  reapAttempted : Bool
deriving Repr

/-- The task thread body spawned by `MissionExecutor::start` (executor.rs
118-207): when stdout is piped but the child handle exposes no stdout the
whole thread returns at once (executor.rs 122-125) and nothing else runs;
otherwise the stdout reader (when piped), the stderr reader and the
supervisor run.  `stdoutPresent` models `child.stdout.take()` returning
`Some`; stderr is always piped and its handle is assumed present (the
source `expect`s it). -/
def childThread (with_stdout stdoutPresent : Bool) (env : ThreadEnv) :
    ThreadOutcome :=
  if with_stdout && !stdoutPresent then
    ⟨false, false, [], [], [], false, none, false⟩
  else
    let outEvents :=
      if with_stdout then (stdoutReaderRun env.stdoutSendOk env.stdoutReads 0).1
      else []
    let errRun := stderrReaderRun env.stderrSendOk env.stopSendOk env.stderrReads 0
    let sup := supervisorRun env.stop env.tryWait env.lineSendOk env.killEnv
      env.kill_command env.childId
    ⟨with_stdout, true, outEvents, errRun.1, sup.events, true, sup.killMethod,
      sup.reapAttempted⟩

/-- Outcome of `TaskExecutor::die`: whether the `Kill` send failed (control
receiver already gone) and whether the join returned. -/
structure DieOutcome where
  sendFailed : Bool
  joined : Bool
deriving DecidableEq, Repr

/-- Model of `TaskExecutor::die` (executor.rs 66-73): send `Kill` on the
control channel — a send failure, which happens exactly when the
supervising thread has already returned and dropped the receiver, is only
logged — then join the thread.  Every thread body in this model is a total
function, so the join always returns. -/
def TaskExecutor.die (receiverAlive : Bool) : DieOutcome :=
  ⟨!receiverAlive, true⟩

/-! The change filter of the watcher callback (app.rs 45-87).  The event
kind taxonomy mirrors the `notify` crate's types as matched by the
callback. -/

inductive DataChange
  | any
  | size
  | content
  | other
deriving DecidableEq, Repr

inductive MetadataKind
  | any
  | accessTime
  | writeTime
  | ownership
  | permissions
  | extended
  | other
deriving DecidableEq, Repr

inductive RenameMode
  | any
  | to
  | from
  | both
  | other
deriving DecidableEq, Repr

inductive ModifyKind
  | any
  | data (c : DataChange)
  | metadata (m : MetadataKind)
  | name (r : RenameMode)
  | other
deriving DecidableEq, Repr

inductive AccessMode
  | any
  | execute
  | read
  | write
  | other
deriving DecidableEq, Repr

inductive AccessKind
  | any
  | read
  | open (m : AccessMode)
  | close (m : AccessMode)
  | other
deriving DecidableEq, Repr

inductive CreateKind
  | any
  | file
  | folder
  | other
deriving DecidableEq, Repr

inductive RemoveKind
  | any
  | file
  | folder
  | other
deriving DecidableEq, Repr

inductive EventKind
  | any
  | access (a : AccessKind)
  | create (c : CreateKind)
  | modify (m : ModifyKind)
  | remove (r : RemoveKind)
  | other
deriving DecidableEq, Repr

/-- A raw filesystem event as seen by the callback: its kind and the touched
paths. -/
structure NotifyEvent where
  kind : EventKind
  paths : List String
deriving DecidableEq, Repr

/-- The kind classification of the watcher callback (app.rs 48-67): drop
metadata-only modifications, `DataChange::Any` modifications, and access
events other than close-after-write; keep close-after-write and every kind
not explicitly matched. -/
def kindPropagates : EventKind → Bool
  | .modify (.metadata _) => false
  | .modify (.data .any) => false
  | .access (.close .write) => true
  | .access _ => false
  | _ => true

/-- Whether the callback keeps an event of the given kind (app.rs 48-81):
the kind classification followed, when an ignorer is configured, by the
exclusion predicate.  `exclRes` is the result of
`ignorer.excludes_all(&we.paths)` (`none` when no ignorer is configured);
`Ok(true)` drops the event, `Ok(false)` keeps it, and an evaluation error
is logged and keeps it (fail open). -/
def watcherKeeps (kind : EventKind) (exclRes : Option (Except String Bool)) :
    Bool :=
  kindPropagates kind &&
    match exclRes with
    | some (.ok true) => false
    | some (.ok false) => true
    | some (.error _) => true
    | none => true

/-- The whole watcher callback (app.rs 46-87): a watch error is logged and
dropped; a surviving event results in exactly one send of `()` on the
change-signal channel.  Returns the list of sends attempted. -/
def watcher_callback (res : Except String NotifyEvent)
    (exclRes : Option (Except String Bool)) : List Unit :=
  match res with
  | .error _ => []
  | .ok we => if watcherKeeps we.kind exclRes then [()] else []

/-! The orchestration loop of `run` (app.rs 102-247), as a step function over
the control-relevant state, emitting the executor operations it performs. -/

inductive OnChangeStrategy
  | WaitThenRestart
  | KillThenRestart
deriving DecidableEq, Repr

inductive AutoRefresh
  | Enabled
  | Paused
deriving DecidableEq, Repr

def AutoRefresh.is_enabled : AutoRefresh → Bool
  | .Enabled => true
  | .Paused => false

inductive JobRef
  | Previous
  | Concrete (name : String)
deriving DecidableEq, Repr

/-- The internal actions (the variants dispatched in app.rs 172-236).
Scroll's command payload is irrelevant to the loop's control flow and kept
abstract as an integer. -/
inductive Internal
  | ReRun
  | Refresh
  | Back
  | Help
  | Quit
  | ToggleRawOutput
  | ToggleSummary
  | ToggleWrap
  | ToggleBacktrace
  | Scroll (sc : Int)
  | Pause
  | Unpause
  | TogglePause
deriving DecidableEq, Repr

inductive Action
  | Internal (i : Internal)
  | Export (name : String)
  | Job (r : JobRef)
deriving DecidableEq, Repr

/-- Modelled from the spec: the fields of `AppState` (which lives outside
the given sources) that the orchestration loop's control flow reads or
writes — the AutoRefresh mode, the computing flag, the count of changes
since the last task start, the help-overlay flag and the backtrace flag
(spec section 3). -/
structure AppState where
  auto_refresh : AutoRefresh
  computing : Bool
  changes_since_last_job_start : Nat
  help_open : Bool
  backtrace : Bool
deriving DecidableEq, Repr

/-- Modelled from the spec: receiving a change signal increments the count
of changes observed since the last task start. -/
def AppState.receive_watch_event (s : AppState) : AppState :=
  { s with changes_since_last_job_start := s.changes_since_last_job_start + 1 }

def AppState.is_computing (s : AppState) : Bool := s.computing

/-- Modelled from the spec: starting a computation marks the state computing
and resets changes-since-last-start to zero ("changes-since-last-start
resets to zero exactly when a new task starts", spec section 3). -/
def AppState.computation_starts (s : AppState) : AppState :=
  { s with computing := true, changes_since_last_job_start := 0 }

/-- Modelled from the spec: storing the finished command result transitions
the state to Idle; only the computing flag is tracked here. -/
def AppState.set_result (s : AppState) : AppState :=
  { s with computing := false }

/-- Modelled from the spec: stopping the computation transitions to Idle. -/
def AppState.computation_stops (s : AppState) : AppState :=
  { s with computing := false }

/-- Modelled from the spec: close the help overlay, reporting whether it was
open (`Internal::Back` consumes the action exactly when it was). -/
def AppState.close_help (s : AppState) : AppState × Bool :=
  ({ s with help_open := false }, s.help_open)

def AppState.toggle_help (s : AppState) : AppState :=
  { s with help_open := !s.help_open }

def AppState.toggle_backtrace (s : AppState) : AppState :=
  { s with backtrace := !s.backtrace }

/-- Modelled from the spec: `clear` resets the accumulated output, which is
not part of the tracked control state, so it leaves these fields
unchanged. -/
def AppState.clear (s : AppState) : AppState := s

/-- Executor operations performed by the loop, in order: starting a task
executor, killing-and-joining one (`die`), and clearing the accumulated
state. -/
inductive ExecOp
  | start
  | die
  | clear
deriving DecidableEq, Repr

/-- One serviced branch of the `select!` (app.rs 104-160), with the data its
handling depends on.  External lookups enter as the `Option Action` they
return: `resultAction` is what `state.action()` yields after an `End`, and
`key`'s payload is the keybinding table's answer. -/
inductive LoopEvent
  | watch
  | lineEvt (l : CommandOutputLine)
  | endEvt (status : Option ExitStatus) (resultAction : Option Action)
  | errorEvt (msg : String)
  | interruption
  | key (act : Option Action)
  | resize
deriving Repr

/-- How one loop iteration ends: continue looping, break out (carrying the
`next_job` set on that path), or return early through a failed `?`
(spawn failure inside `start_computation`). -/
inductive IterExit
  | cont
  | brk (nextJob : Option JobRef)
  | errExit
deriving DecidableEq, Repr

/-- The `select!` body (app.rs 104-160): how one received event updates the
state and resolves an optional action.  The boolean is true when the
branch breaks the loop directly (the `CommandExecInfo::Error` arm). -/
def resolveEvent (strat : OnChangeStrategy) (s : AppState) :
    LoopEvent → AppState × Option Action × Bool
  | .watch =>
    let s := s.receive_watch_event
    if s.auto_refresh.is_enabled &&
        (!s.is_computing || strat == .KillThenRestart) then
      (s, some (.Internal .ReRun), false)
    else (s, none, false)
  | .lineEvt _ => (s, none, false)
  | .endEvt _ act => (s.set_result, act, false)
  | .errorEvt _ => (s.computation_stops, none, true)
  | .interruption => (s, none, false)
  | .key act => (s, act, false)
  | .resize => (s, none, false)

/-- One `state.start_computation(&mut executor)?` call: kill has already
been emitted by the caller; on spawn success the state starts a new
computation, on failure the `?` exits `run` early. -/
def restartOps (s : AppState) (spawnOk : Bool) :
    AppState × List ExecOp × IterExit :=
  if spawnOk then (s.computation_starts, [.die, .start], .cont)
  else (s, [.die], .errExit)

/-- The action dispatch of the loop (app.rs 162-242).  `spawnOk` is the
oracle for the `executor.start` inside any `start_computation` performed.
Returns the new state, the executor operations performed in order, and how
the iteration ends. -/
def applyAction (s : AppState) (spawnOk : Bool) :
    Action → AppState × List ExecOp × IterExit
  | .Export _ => (s, [], .cont)
  | .Job r => (s, [], .brk (some r))
  | .Internal i =>
    match i with
    | .Back =>
      match s.close_help with
      | (s', true) => (s', [], .cont)
      | (s', false) => (s', [], .brk (some .Previous))
    | .Help => (s.toggle_help, [], .cont)
    | .Quit => (s, [], .brk none)
    | .Refresh =>
      match restartOps s.clear spawnOk with
      | (s', ops, ex) => (s', .clear :: ops, ex)
    | .ReRun => restartOps s spawnOk
    | .ToggleRawOutput => (s, [], .cont)
    | .ToggleSummary => (s, [], .cont)
    | .ToggleWrap => (s, [], .cont)
    | .ToggleBacktrace => restartOps s.toggle_backtrace spawnOk
    | .Scroll _ => (s, [], .cont)
    | .Pause => ({ s with auto_refresh := .Paused }, [], .cont)
    | .Unpause =>
      if s.changes_since_last_job_start > 0 then
        match restartOps s.clear spawnOk with
        | (s', ops, .cont) =>
          ({ s' with auto_refresh := .Enabled }, .clear :: ops, .cont)
        | (s', ops, ex) => (s', .clear :: ops, ex)
      else ({ s with auto_refresh := .Enabled }, [], .cont)
    | .TogglePause =>
      match s.auto_refresh with
      | .Enabled => ({ s with auto_refresh := .Paused }, [], .cont)
      | .Paused =>
        if s.changes_since_last_job_start > 0 then
          match restartOps s.clear spawnOk with
          | (s', ops, .cont) =>
            ({ s' with auto_refresh := .Enabled }, .clear :: ops, .cont)
          | (s', ops, ex) => (s', .clear :: ops, ex)
        else ({ s with auto_refresh := .Enabled }, [], .cont)

/-- One loop iteration: resolve the serviced event, then apply the resolved
action if any (app.rs 104-242). -/
def runStep (strat : OnChangeStrategy) (s : AppState) (e : LoopEvent)
    (spawnOk : Bool) : AppState × List ExecOp × IterExit :=
  match resolveEvent strat s e with
  | (s', _, true) => (s', [], .brk none)
  | (s', some a, false) => applyAction s' spawnOk a
  | (s', none, false) => (s', [], .cont)

/-- How a whole run of the loop ends over a finite schedule of events. -/
inductive RunExit
  | pending
  | broke (nextJob : Option JobRef)
  | errReturn
deriving DecidableEq, Repr

/-- The loop over a finite schedule of serviced events, each paired with the
spawn-success oracle for any restart it performs.  On a break path the
`task_executor.die()` of app.rs 245 is appended; a `?` failure returns
early without it; an exhausted schedule leaves the loop blocked in
`select!` (`pending`).  Other fallible operations of the loop body (`draw`,
`CommandResult::new`, a closed input channel) end the schedule early and
correspond to a shorter event list. -/
def loopRun (strat : OnChangeStrategy) :
    AppState → List (LoopEvent × Bool) → List ExecOp × RunExit
  | _, [] => ([], .pending)
  | s, (e, ok) :: rest =>
    match runStep strat s e ok with
    | (_, ops, .brk j) => (ops ++ [.die], .broke j)
    | (_, ops, .errExit) => (ops, .errReturn)
    | (s', ops, .cont) =>
      let r := loopRun strat s' rest
      (ops ++ r.1, r.2)

/-- The complete executor-operation sequence of one `run` (app.rs 94-247):
`computation_starts` plus the initial `executor.start` of app.rs 97,
followed by the loop's operations. -/
def runTrace (strat : OnChangeStrategy) (s : AppState)
    (evs : List (LoopEvent × Bool)) : List ExecOp × RunExit :=
  (.start :: (loopRun strat s.computation_starts evs).1,
    (loopRun strat s.computation_starts evs).2)

/-- Well-formedness of an operation sequence with respect to the number of
live task executors, starting from `live` of them (`false` = none,
`true` = one): every `start` happens with none live and every `die` with
exactly one live; `clear` has no executor effect.  `opsOk false ops`
means the live count stays in {0, 1} throughout `ops` and every start
other than the first follows the death of the previous executor. -/
def opsOk : Bool → List ExecOp → Bool
  | _, [] => true
  | b, .clear :: rest => opsOk b rest
  | false, .start :: rest => opsOk true rest
  | true, .die :: rest => opsOk false rest
  | _, _ => false

/-- The number of live executors (as a flag) after an operation sequence. -/
def liveAfter : Bool → List ExecOp → Bool
  | b, [] => b
  | b, .clear :: rest => liveAfter b rest
  | _, .start :: rest => liveAfter true rest
  | _, .die :: rest => liveAfter false rest

/-! The export entry point (`export_settings.rs`). -/

/-- A filesystem path: whether it is absolute, and its components. -/
structure XPath where
  absolute : Bool
  parts : List String
deriving DecidableEq, Repr

def XPath.is_relative (p : XPath) : Bool := !p.absolute

/-- Model of `Path::join`: appending a relative path to a base; an absolute
right-hand side replaces the base. -/
def XPath.join (p q : XPath) : XPath :=
  if q.absolute then q else ⟨p.absolute, p.parts ++ q.parts⟩

inductive Exporter
  | Analysis
  | JsonReport
  | Locations
deriving DecidableEq, Repr

/-- The report of a command result; its content is irrelevant to the export
path logic and abstracted to the raw lines. -/
structure Report where
  lines : List String
deriving DecidableEq, Repr

/-- The settings of one export (`ExportSettings`). -/
structure ExportSettings where
  exporter : Exporter
  auto : Bool
  path : XPath
  line_format : String
deriving DecidableEq, Repr

/-- Effect of one `do_export` call: whether it returned Ok, and the path at
which it created or wrote a file, if any. -/
structure ExportEffect where
  ok : Bool
  written : Option XPath
deriving DecidableEq, Repr

/-- Model of `ExportSettings::do_export` (export_settings.rs 18-48): return
Ok with no file when the last command result has no report; otherwise
resolve a relative configured path against the mission's workspace root,
and write the export there.  `cmdReport` is `state.cmd_result.report()`;
`serOk` is whether the serde_json serialization succeeds (`Analysis` and
`JsonReport` serialize before touching the filesystem); `writeOk` is
whether the filesystem write or create-and-write succeeds. -/
def ExportSettings.do_export (es : ExportSettings) (cmdReport : Option Report)
    (workspace_root : XPath) (serOk writeOk : Bool) : ExportEffect :=
  match cmdReport with
  | none => ⟨true, none⟩
  | some _ =>
    let path := if es.path.is_relative then workspace_root.join es.path
      else es.path
    match es.exporter with
    | .Analysis => if !serOk then ⟨false, none⟩ else ⟨writeOk, some path⟩
    | .JsonReport => if !serOk then ⟨false, none⟩ else ⟨writeOk, some path⟩
    | .Locations => ⟨writeOk, some path⟩

/-! Helper lemmas about the reader and supervisor models. -/

lemma stdoutReaderRun_no_stop (so : Nat → Bool) (reads : List ReadEvent) :
    ∀ n, (stdoutReaderRun so reads n).2 = [] := by
  induction reads with
  | nil => intro n; simp [stdoutReaderRun]
  | cons r rest ih =>
    intro n
    cases r with
    | fail m => simpa [stdoutReaderRun] using ih n
    | eof => simp [stdoutReaderRun]
    | line s => by_cases h : so n <;> simp [stdoutReaderRun, h, ih (n + 1)]

lemma stdoutReaderRun_all_lines (so : Nat → Bool) (reads : List ReadEvent) :
    ∀ n, ((stdoutReaderRun so reads n).1.all CommandExecInfo.isLine) = true := by
  induction reads with
  | nil => intro n; simp [stdoutReaderRun]
  | cons r rest ih =>
    intro n
    cases r with
    | fail m => simpa [stdoutReaderRun] using ih n
    | eof => simp [stdoutReaderRun]
    | line s =>
      by_cases h : so n <;>
        simp [stdoutReaderRun, h, CommandExecInfo.isLine, ih (n + 1)]

lemma stderrReaderRun_all_lines (so : Nat → Bool) (stsOk : Bool)
    (reads : List ReadEvent) :
    ∀ n, ((stderrReaderRun so stsOk reads n).1.all CommandExecInfo.isLine) = true := by
  induction reads with
  | nil => intro n; simp [stderrReaderRun]
  | cons r rest ih =>
    intro n
    cases r with
    | fail m => simpa [stderrReaderRun] using ih n
    | eof => simp [stderrReaderRun]
    | line s =>
      by_cases h : so n <;>
        simp [stderrReaderRun, h, CommandExecInfo.isLine, ih (n + 1)]

lemma stderrReaderRun_stop_eof (reads : List ReadEvent) :
    ∀ n, (stderrReaderRun (fun _ => true) true reads n).2 =
      (if reads.any ReadEvent.isEof then [.SendStatus] else []) := by
  induction reads with
  | nil => intro n; simp [stderrReaderRun]
  | cons r rest ih =>
    intro n
    cases r with
    | fail m => simpa [stderrReaderRun, ReadEvent.isEof] using ih n
    | eof => simp [stderrReaderRun, ReadEvent.isEof]
    | line s => simpa [stderrReaderRun, ReadEvent.isEof] using ih (n + 1)

lemma supervisorRun_events_shape (stop : Option StopMessage)
    (tryWait : Except Unit (Option ExitStatus)) (lineSendOk : Bool)
    (env : KillCmdEnv) (kc : Option (List String)) (cid : Nat) :
    (supervisorRun stop tryWait lineSendOk env kc cid).events = []
    ∨ ∃ st, (supervisorRun stop tryWait lineSendOk env kc cid).events = [.End st] := by
  rcases stop with _ | m
  · left; rfl
  · cases m with
    | Kill => left; rfl
    | SendStatus =>
      rcases tryWait with e | st
      · left; rfl
      · cases lineSendOk with
        | false => left; simp [supervisorRun]
        | true => right; exact ⟨st, by simp [supervisorRun]⟩

lemma all_lines_countP_terminal_zero {l : List CommandExecInfo}
    (h : l.all CommandExecInfo.isLine = true) :
    l.countP CommandExecInfo.isTerminal = 0 := by
  rw [List.countP_eq_zero]
  intro e he hterm
  have hl := List.all_eq_true.mp h e he
  cases e <;> simp_all [CommandExecInfo.isLine, CommandExecInfo.isTerminal]

lemma all_lines_no_terminal {l : List CommandExecInfo}
    (h : l.all CommandExecInfo.isLine = true) {e : CommandExecInfo}
    (he : e ∈ l) : e.isTerminal = false := by
  have hl := List.all_eq_true.mp h e he
  cases e <;> simp_all [CommandExecInfo.isLine, CommandExecInfo.isTerminal]

/-- The three per-thread event sequences of one task thread run in the
non-degenerate case. -/
lemma childThread_events (with_stdout stdoutPresent : Bool) (env : ThreadEnv)
    (h : (with_stdout && !stdoutPresent) = false) :
    (childThread with_stdout stdoutPresent env).stdoutEvents =
      (if with_stdout then (stdoutReaderRun env.stdoutSendOk env.stdoutReads 0).1 else [])
    ∧ (childThread with_stdout stdoutPresent env).stderrEvents =
        (stderrReaderRun env.stderrSendOk env.stopSendOk env.stderrReads 0).1
    ∧ (childThread with_stdout stdoutPresent env).supervisorEvents =
        (supervisorRun env.stop env.tryWait env.lineSendOk env.killEnv
          env.kill_command env.childId).events := by
  simp [childThread, h]

/-- C2: for every task started by `MissionExecutor::start`, at most one
terminal event is ever delivered to the output channel, and every terminal
event delivered is an `End` (so in particular one of End/Error/
Interruption); all other events are `Line`s.  `trace` ranges over every
order in which the channel can serialize the three producing threads'
sends (any permutation of their concatenation covers every interleaving). -/
theorem task_terminal_event_unique (with_stdout stdoutPresent : Bool)
    (env : ThreadEnv) (trace : List CommandExecInfo)
    (hperm : trace.Perm
      ((childThread with_stdout stdoutPresent env).stdoutEvents
        ++ (childThread with_stdout stdoutPresent env).stderrEvents
        ++ (childThread with_stdout stdoutPresent env).supervisorEvents)) :
    trace.countP CommandExecInfo.isTerminal ≤ 1
    ∧ ∀ e ∈ trace, e.isTerminal = true → ∃ st, e = CommandExecInfo.End st := by
  by_cases hc : (with_stdout && !stdoutPresent) = true
  · have hout : childThread with_stdout stdoutPresent env =
        ⟨false, false, [], [], [], false, none, false⟩ := by
      simp [childThread, hc]
    rw [hout] at hperm
    simp only [List.nil_append] at hperm
    have : trace = [] := hperm.eq_nil
    subst this
    exact ⟨by simp, by intro e he; simp at he⟩
  · have hc' : (with_stdout && !stdoutPresent) = false := by
      simpa using hc
    obtain ⟨ho, he, hs⟩ := childThread_events with_stdout stdoutPresent env hc'
    have hallo : (childThread with_stdout stdoutPresent env).stdoutEvents.all
        CommandExecInfo.isLine = true := by
      rw [ho]
      cases with_stdout <;> simp [stdoutReaderRun_all_lines]
    have halle : (childThread with_stdout stdoutPresent env).stderrEvents.all
        CommandExecInfo.isLine = true := by
      rw [he]; exact stderrReaderRun_all_lines _ _ _ 0
    have hsup := supervisorRun_events_shape env.stop env.tryWait env.lineSendOk
      env.killEnv env.kill_command env.childId
    constructor
    · rw [hperm.countP_eq, List.countP_append, List.countP_append,
        all_lines_countP_terminal_zero hallo, all_lines_countP_terminal_zero halle]
      simp only [Nat.zero_add]
      rw [hs]
      rcases hsup with h0 | ⟨st, h1⟩
      · simp [h0]
      · simp [h1, List.countP_cons, CommandExecInfo.isTerminal]
    · intro e hetr hterm
      have hemem := hperm.mem_iff.mp hetr
      rcases List.mem_append.mp hemem with hlft | hsupmem
      · rcases List.mem_append.mp hlft with h1 | h2
        · exact absurd (all_lines_no_terminal hallo h1) (by simp [hterm])
        · exact absurd (all_lines_no_terminal halle h2) (by simp [hterm])
      · rw [hs] at hsupmem
        rcases hsup with h0 | ⟨st, h1⟩
        · rw [h0] at hsupmem; simp at hsupmem
        · rw [h1] at hsupmem
          simp only [List.mem_singleton] at hsupmem
          exact ⟨st, hsupmem⟩

/-- Witness for C2 at a concrete run: stderr reaches end-of-stream, the
supervisor publishes one `End`, and the serialized trace holds exactly that
one terminal event. -/
theorem task_terminal_event_unique_witness :
    List.countP CommandExecInfo.isTerminal [CommandExecInfo.End none] ≤ 1 := by
  have h := task_terminal_event_unique true true
    ⟨[], [.eof], fun _ => true, fun _ => true, true, some .SendStatus, .ok none,
      true, ⟨true, .ok ⟨0⟩, true⟩, none, 0⟩
    [CommandExecInfo.End none] (by decide)
  exact h.1

/-- C3: stderr end-of-stream is the completion trigger — with a live
channel the stderr reader delivers `SendStatus` exactly when its reads
reach end-of-stream, and the supervisor, having received `SendStatus` and
fetched the exit status, emits exactly one `End{status}` (killing nothing
and still reaping the child); the stdout reader never sends any control
message and produces only `Line` events, so its end-of-stream stops it
silently. -/
theorem stderr_eof_completion (reads : List ReadEvent) (n : Nat)
    (st : Option ExitStatus) (kenv : KillCmdEnv) (kc : Option (List String))
    (cid : Nat) (so : Nat → Bool) :
    (stderrReaderRun (fun _ => true) true reads n).2 =
      (if reads.any ReadEvent.isEof then [.SendStatus] else [])
    ∧ supervisorRun (some .SendStatus) (.ok st) true kenv kc cid =
        ⟨[.End st], none, true⟩
    ∧ (stdoutReaderRun so reads n).2 = []
    ∧ ((stdoutReaderRun so reads n).1.all CommandExecInfo.isLine) = true :=
  ⟨stderrReaderRun_stop_eof reads n, rfl, stdoutReaderRun_no_stop so reads n,
    stdoutReaderRun_all_lines so reads n⟩

/-- C7: the custom kill command is spawned with the child's PID appended as
its final argument and succeeds only after a successful wait returning a
zero exit status; when it is absent or fails in any way — spawn failure
included — the default OS-level kill is used (modelled as unconditionally
successful), and the supervisor still completes its kill-and-reap path, so
`die()`'s join returns. -/
theorem kill_custom_command_fallback (kenv : KillCmdEnv) (exe : String)
    (args : List String) (c : List String) (cid : Nat)
    (tw : Except Unit (Option ExitStatus)) (lsOk : Bool) :
    (run_kill_command kenv (exe :: args) cid).spawned =
        some (exe, args ++ [toString cid])
    ∧ ((run_kill_command kenv c cid).result = .ok () →
        kenv.spawnOk = true ∧ ∃ st, kenv.procWait = .ok st ∧ st.success = true)
    ∧ kill kenv none cid = .defaultKill
    ∧ ((run_kill_command kenv c cid).result ≠ .ok () →
        kill kenv (some c) cid = .defaultKill)
    ∧ (kenv.spawnOk = false →
        kill kenv (some c) cid = .defaultKill
        ∧ supervisorRun (some .Kill) tw lsOk kenv (some c) cid =
            ⟨[], some .defaultKill, true⟩) := by
  obtain ⟨sp, pw, cw⟩ := kenv
  refine ⟨?_, ?_, rfl, ?_, ?_⟩
  · cases sp with
    | false => rfl
    | true =>
      rcases pw with e | st
      · rfl
      · by_cases hs : st.success <;> cases cw <;>
          simp [run_kill_command, hs]
  · intro hok
    cases c with
    | nil => simp [run_kill_command] at hok
    | cons exe2 args2 =>
      cases sp with
      | false => simp [run_kill_command] at hok
      | true =>
        rcases pw with e | st
        · simp [run_kill_command] at hok
        · by_cases hs : st.success
          · cases cw with
            | false => simp [run_kill_command, hs] at hok
            | true => exact ⟨rfl, st, rfl, hs⟩
          · simp [run_kill_command, hs] at hok
  · intro hne
    rcases hr : (run_kill_command ⟨sp, pw, cw⟩ c cid).result with e | u
    · simp [kill, hr]
    · cases u; exact absurd hr hne
  · intro hsp
    subst hsp
    have hkill : kill ⟨false, pw, cw⟩ (some c) cid = .defaultKill := by
      cases c with
      | nil => rfl
      | cons exe2 args2 => simp [kill, run_kill_command]
    exact ⟨hkill, by simp [supervisorRun, hkill]⟩

/-- Witness for C7: a kill command whose spawn fails still ends in the
default kill, with the supervisor completing. -/
theorem kill_custom_command_fallback_witness :
    kill ⟨false, .error (), false⟩ (some ["mykill"]) 7 = .defaultKill := by
  have h := kill_custom_command_fallback ⟨false, .error (), false⟩ "mykill" []
    ["mykill"] 7 (.ok none) true
  exact (h.2.2.2.2 rfl).1

/-- C8: when stdout capture is enabled but the child handle exposes no
stdout, the task thread returns immediately: neither reader is started, no
event of any kind is delivered, the control message is never consumed, the
child is neither killed nor reaped; a subsequent `die()` finds the control
receiver gone (its send fails, which is only logged) and its join still
returns. -/
theorem missing_stdout_early_return (env : ThreadEnv) :
    childThread true false env = ⟨false, false, [], [], [], false, none, false⟩
    ∧ TaskExecutor.die false = ⟨true, true⟩ :=
  ⟨rfl, rfl⟩

/-- C9: an empty configured kill command makes `run_kill_command` return
the InvalidInput error without any spawn attempt, `kill` then falls back
to the default `child.kill()` (modelled as unconditionally successful, so
nothing panics), and the supervisor still completes its kill-and-reap
path: termination is never prevented. -/
theorem empty_kill_command_falls_back (kenv : KillCmdEnv) (cid : Nat)
    (tw : Except Unit (Option ExitStatus)) (lsOk : Bool) :
    run_kill_command kenv [] cid = ⟨none, .error .invalidInput⟩
    ∧ kill kenv (some []) cid = .defaultKill
    ∧ supervisorRun (some .Kill) tw lsOk kenv (some []) cid =
        ⟨[], some .defaultKill, true⟩ :=
  ⟨rfl, rfl, rfl⟩

/-- C10: `do_export` returns Ok and writes nothing when the last command
result has no report; with a report, a relative configured path is
resolved against the mission's workspace root and an absolute one is used
unchanged. -/
theorem do_export_report_and_path (es : ExportSettings) (root : XPath)
    (r : Report) (serOk writeOk : Bool) :
    es.do_export none root serOk writeOk = ⟨true, none⟩
    ∧ (es.path.is_relative = true →
        (es.do_export (some r) root true writeOk).written =
          some (root.join es.path))
    ∧ (es.path.is_relative = false →
        (es.do_export (some r) root true writeOk).written = some es.path) := by
  refine ⟨rfl, ?_, ?_⟩ <;> intro h <;> cases hx : es.exporter <;>
    simp [ExportSettings.do_export, hx, h]

/-- Witness for C10: a relative export path lands inside the workspace
root. -/
theorem do_export_report_and_path_witness :
    (ExportSettings.do_export ⟨.Analysis, false, ⟨false, ["out.json"]⟩, ""⟩
        (some ⟨[]⟩) ⟨true, ["root"]⟩ true true).written =
      some ⟨true, ["root", "out.json"]⟩ := by
  have h := do_export_report_and_path
    ⟨.Analysis, false, ⟨false, ["out.json"]⟩, ""⟩ ⟨true, ["root"]⟩ ⟨[]⟩ true true
  have h2 := h.2.1 rfl
  rw [h2]; rfl

/-- C4: the change filter drops metadata-only modifications, `Any` data
changes and access events other than close-after-write; it propagates
close-after-write and every kind not explicitly recognized; a propagated
candidate is dropped exactly when the exclusion predicate answers
`Ok(true)`, kept on `Ok(false)`, and kept (fail open) when the predicate
evaluation fails; a surviving event results in exactly one send on the
change-signal channel, and a watch error sends nothing. -/
theorem change_filter_decisions :
    (∀ m, kindPropagates (.modify (.metadata m)) = false)
    ∧ kindPropagates (.modify (.data .any)) = false
    ∧ kindPropagates (.access (.close .write)) = true
    ∧ (∀ a, a ≠ AccessKind.close .write → kindPropagates (.access a) = false)
    ∧ kindPropagates .any = true
    ∧ kindPropagates .other = true
    ∧ (∀ c, kindPropagates (.create c) = true)
    ∧ (∀ r, kindPropagates (.remove r) = true)
    ∧ (∀ dc, dc ≠ DataChange.any → kindPropagates (.modify (.data dc)) = true)
    ∧ (∀ rn, kindPropagates (.modify (.name rn)) = true)
    ∧ kindPropagates (.modify .any) = true
    ∧ kindPropagates (.modify .other) = true
    ∧ (∀ k, kindPropagates k = true →
        watcherKeeps k (some (.ok true)) = false
        ∧ watcherKeeps k (some (.ok false)) = true
        ∧ (∀ msg, watcherKeeps k (some (.error msg)) = true)
        ∧ watcherKeeps k none = true)
    ∧ (∀ we exclRes, watcher_callback (.ok we) exclRes =
        if watcherKeeps we.kind exclRes then [()] else [])
    ∧ (∀ msg exclRes, watcher_callback (.error msg) exclRes = []) := by
  refine ⟨?_, rfl, rfl, ?_, rfl, rfl, ?_, ?_, ?_, ?_, rfl, rfl, ?_, ?_, ?_⟩
  · intro m; cases m <;> rfl
  · intro a ha
    cases a with
    | close m => cases m <;> first | rfl | exact absurd rfl ha
    | _ => rfl
  · intro c; cases c <;> rfl
  · intro r; cases r <;> rfl
  · intro dc hdc; cases dc <;> first | rfl | exact absurd rfl hdc
  · intro rn; cases rn <;> rfl
  · intro k hk
    refine ⟨?_, ?_, ?_, ?_⟩ <;> simp [watcherKeeps, hk]
  · intro we exclRes; rfl
  · intro msg exclRes; rfl

/-- Witness for C4: a non-write close access event is dropped, and an
excluded close-after-write event sends nothing while a kept one sends
once. -/
theorem change_filter_decisions_witness :
    kindPropagates (.access (.close .read)) = false
    ∧ watcherKeeps (.access (.close .write)) (some (.ok true)) = false
    ∧ watcher_callback (.ok ⟨.access (.close .write), ["a.rs"]⟩)
        (some (.error "io")) = [()] := by
  have h := change_filter_decisions
  refine ⟨h.2.2.2.1 (AccessKind.close .read) (by decide), ?_, ?_⟩
  · exact (h.2.2.2.2.2.2.2.2.2.2.2.2.1 (.access (.close .write)) rfl).1
  · have hcb := h.2.2.2.2.2.2.2.2.2.2.2.2.2.1
      ⟨.access (.close .write), ["a.rs"]⟩ (some (.error "io"))
    rw [hcb]
    have hk := (h.2.2.2.2.2.2.2.2.2.2.2.2.1 (.access (.close .write)) rfl).2.2.1 "io"
    rw [hk]
    rfl

/-- C5: receiving a change signal increments changes-since-last-start,
breaks nothing, and resolves `Internal::ReRun` exactly when AutoRefresh is
Enabled and either the state is not computing or the strategy is
KillThenRestart; when computing under WaitThenRestart only the counter
changes and no action is resolved. -/
theorem watch_event_resolution (strat : OnChangeStrategy) (s : AppState) :
    ((resolveEvent strat s .watch).2.1 = some (.Internal .ReRun) ↔
      s.auto_refresh = .Enabled ∧ (s.computing = false ∨ strat = .KillThenRestart))
    ∧ (resolveEvent strat s .watch).1 =
        { s with changes_since_last_job_start :=
            s.changes_since_last_job_start + 1 }
    ∧ (resolveEvent strat s .watch).2.2 = false
    ∧ ((resolveEvent strat s .watch).2.1 = some (.Internal .ReRun)
        ∨ (resolveEvent strat s .watch).2.1 = none)
    ∧ (s.computing = true ∧ strat = .WaitThenRestart →
        (resolveEvent strat s .watch).2.1 = none) := by
  obtain ⟨ar, cm, ch, hp, bt⟩ := s
  cases ar <;> cases cm <;> cases strat <;>
    simp [resolveEvent, AppState.receive_watch_event, AutoRefresh.is_enabled,
      AppState.is_computing]

/-- Witness for C5: a change arriving while computing under WaitThenRestart
resolves no action. -/
theorem watch_event_resolution_witness :
    (resolveEvent .WaitThenRestart ⟨.Enabled, true, 2, false, false⟩ .watch).2.1 =
      none := by
  have h := watch_event_resolution .WaitThenRestart ⟨.Enabled, true, 2, false, false⟩
  exact h.2.2.2.2 ⟨rfl, rfl⟩

/-- C6: `TogglePause` from Enabled only pauses; from Paused it (like
`Unpause`) performs exactly one clear-kill-restart when
changes-since-last-start is positive and none when it is zero, and in both
cases then re-enables AutoRefresh. -/
theorem toggle_pause_unpause (s : AppState) :
    (s.auto_refresh = .Enabled →
      applyAction s true (.Internal .TogglePause) =
        ({ s with auto_refresh := .Paused }, [], .cont))
    ∧ (s.auto_refresh = .Paused →
        applyAction s true (.Internal .TogglePause) =
          (if s.changes_since_last_job_start > 0 then
            ({ s.computation_starts with auto_refresh := .Enabled },
              [.clear, .die, .start], .cont)
          else ({ s with auto_refresh := .Enabled }, [], .cont)))
    ∧ applyAction s true (.Internal .Unpause) =
        (if s.changes_since_last_job_start > 0 then
          ({ s.computation_starts with auto_refresh := .Enabled },
            [.clear, .die, .start], .cont)
        else ({ s with auto_refresh := .Enabled }, [], .cont))
    ∧ (s.auto_refresh = .Paused →
        ((applyAction s true (.Internal .TogglePause)).2.1.count ExecOp.start =
          if s.changes_since_last_job_start > 0 then 1 else 0))
    ∧ ((applyAction s true (.Internal .Unpause)).2.1.count ExecOp.start =
        if s.changes_since_last_job_start > 0 then 1 else 0) := by
  obtain ⟨ar, cm, ch, hp, bt⟩ := s
  cases ar <;> cases ch <;>
    simp [applyAction, restartOps, AppState.clear, AppState.computation_starts,
      List.count_cons]

/-- Witness for C6: from Paused with three pending changes, `TogglePause`
performs exactly one clear-kill-restart and re-enables AutoRefresh. -/
theorem toggle_pause_unpause_witness :
    applyAction ⟨.Paused, true, 3, false, false⟩ true (.Internal .TogglePause) =
      (⟨.Enabled, true, 0, false, false⟩, [.clear, .die, .start], .cont) := by
  have h := toggle_pause_unpause ⟨.Paused, true, 3, false, false⟩
  have h2 := h.2.1 rfl
  rw [h2]
  decide

/-! The single-live-executor invariant (C1). -/

/-- The operation/exit shapes one loop iteration can produce: no executor
operation at all (continue or break), a successful kill-then-restart
(optionally preceded by a clear), or a kill whose restart failed to spawn,
exiting `run` early. -/
def stepShape (ops : List ExecOp) (ex : IterExit) : Prop :=
  (ops = [] ∧ ex ≠ .errExit)
  ∨ ((ops = [.die, .start] ∨ ops = [.clear, .die, .start]) ∧ ex = .cont)
  ∨ ((ops = [.die] ∨ ops = [.clear, .die]) ∧ ex = .errExit)

lemma applyAction_stepShape (s : AppState) (ok : Bool) (a : Action) :
    stepShape (applyAction s ok a).2.1 (applyAction s ok a).2.2 := by
  rcases s with ⟨ar, cm, ch, hp, bt⟩
  rcases a with i | n | r
  · cases i <;> cases ok <;> cases ar <;> cases hp <;> cases ch <;>
      simp [stepShape, applyAction, restartOps, AppState.close_help,
        AppState.clear, AppState.toggle_backtrace, AppState.toggle_help,
        AppState.computation_starts]
  · simp [stepShape, applyAction]
  · simp [stepShape, applyAction]

lemma runStep_stepShape (strat : OnChangeStrategy) (s : AppState)
    (e : LoopEvent) (ok : Bool) :
    stepShape (runStep strat s e ok).2.1 (runStep strat s e ok).2.2 := by
  rcases hre : resolveEvent strat s e with ⟨s', oa, b⟩
  cases b with
  | true => simp [stepShape, runStep, hre]
  | false =>
    cases oa with
    | none => simp [stepShape, runStep, hre]
    | some a =>
      have h := applyAction_stepShape s' ok a
      simpa [runStep, hre] using h

lemma liveAfter_append (b : Bool) (l₁ l₂ : List ExecOp) :
    liveAfter b (l₁ ++ l₂) = liveAfter (liveAfter b l₁) l₂ := by
  induction l₁ generalizing b with
  | nil => rfl
  | cons op rest ih => cases op <;> simp [liveAfter, ih]

lemma loopRun_ok (strat : OnChangeStrategy) (evs : List (LoopEvent × Bool)) :
    ∀ s : AppState,
      opsOk true (loopRun strat s evs).1 = true
      ∧ ∀ j, (loopRun strat s evs).2 = .broke j →
          liveAfter true (loopRun strat s evs).1 = false
          ∧ (loopRun strat s evs).1.getLast? = some ExecOp.die := by
  induction evs with
  | nil =>
    intro s
    refine ⟨by simp [loopRun, opsOk], ?_⟩
    intro j h
    simp [loopRun] at h
  | cons p rest ih =>
    intro s
    obtain ⟨e, ok⟩ := p
    have hshape := runStep_stepShape strat s e ok
    rcases hrs : runStep strat s e ok with ⟨s', ops, ex⟩
    rw [hrs] at hshape
    simp only [stepShape] at hshape
    cases ex with
    | brk j0 =>
      have hops : ops = [] := by
        rcases hshape with ⟨h1, _⟩ | ⟨_, h2⟩ | ⟨_, h2⟩
        · exact h1
        · exact absurd h2 (by simp)
        · exact absurd h2 (by simp)
      subst hops
      refine ⟨by simp [loopRun, hrs, opsOk], ?_⟩
      intro j hb
      simp [loopRun, hrs, liveAfter, opsOk]
    | errExit =>
      have hops : ops = [.die] ∨ ops = [.clear, .die] := by
        rcases hshape with ⟨_, h1⟩ | ⟨_, h2⟩ | ⟨h3, _⟩
        · exact absurd rfl h1
        · exact absurd h2 (by simp)
        · exact h3
      have hexit : (loopRun strat s ((e, ok) :: rest)).2 = .errReturn := by
        simp [loopRun, hrs]
      refine ⟨?_, ?_⟩
      · rcases hops with h | h <;> subst h <;> simp [loopRun, hrs, opsOk]
      · intro j hb
        rw [hexit] at hb
        exact absurd hb (by simp)
    | cont =>
      obtain ⟨ih1, ih2⟩ := ih s'
      have hops : ops = [] ∨ ops = [.die, .start] ∨ ops = [.clear, .die, .start] := by
        rcases hshape with ⟨h1, _⟩ | ⟨h2, _⟩ | ⟨_, h3⟩
        · exact Or.inl h1
        · exact Or.inr h2
        · exact absurd h3 (by simp)
      have hcons : (loopRun strat s ((e, ok) :: rest)).1 =
          ops ++ (loopRun strat s' rest).1 := by
        simp [loopRun, hrs]
      have hexit : (loopRun strat s ((e, ok) :: rest)).2 =
          (loopRun strat s' rest).2 := by
        simp [loopRun, hrs]
      refine ⟨?_, ?_⟩
      · rw [hcons]
        rcases hops with h | h | h <;> subst h <;> simpa [opsOk] using ih1
      · intro j hb
        rw [hexit] at hb
        obtain ⟨hl1, hl2⟩ := ih2 j hb
        have hne : (loopRun strat s' rest).1 ≠ [] := by
          intro h0
          rw [h0] at hl2
          simp at hl2
        refine ⟨?_, ?_⟩
        · rw [hcons, liveAfter_append]
          rcases hops with h | h | h <;> subst h <;>
            simpa [liveAfter] using hl1
        · rw [hcons, List.getLast?_append_of_ne_nil _ hne]
          exact hl2

/-- C1: along every schedule of serviced events, the executor-operation
trace of `run` keeps at most one task executor live — every start other
than the initial one happens only after the previous executor's `die()` —
and on every break path the trace ends with the final `die()` of app.rs
245, leaving no live executor when `run` returns. -/
theorem run_single_live_executor (strat : OnChangeStrategy) (s : AppState)
    (evs : List (LoopEvent × Bool)) :
    opsOk false (runTrace strat s evs).1 = true
    ∧ ∀ j, (runTrace strat s evs).2 = .broke j →
        liveAfter false (runTrace strat s evs).1 = false
        ∧ (runTrace strat s evs).1.getLast? = some ExecOp.die := by
  obtain ⟨h1, h2⟩ := loopRun_ok strat evs s.computation_starts
  refine ⟨by simpa [runTrace, opsOk] using h1, ?_⟩
  intro j hb
  have hb' : (loopRun strat s.computation_starts evs).2 = .broke j := hb
  obtain ⟨hl1, hl2⟩ := h2 j hb'
  have hne : (loopRun strat s.computation_starts evs).1 ≠ [] := by
    intro h0
    rw [h0] at hl2
    simp at hl2
  refine ⟨by simpa [runTrace, liveAfter] using hl1, ?_⟩
  show (ExecOp.start :: (loopRun strat s.computation_starts evs).1).getLast? =
    some ExecOp.die
  have hsplit : ExecOp.start :: (loopRun strat s.computation_starts evs).1 =
      [ExecOp.start] ++ (loopRun strat s.computation_starts evs).1 := rfl
  rw [hsplit, List.getLast?_append_of_ne_nil _ hne]
  exact hl2

/-- Witness for C1: a run that quits after one serviced key event produces
the trace start-then-die, breaking with no live executor. -/
theorem run_single_live_executor_witness :
    liveAfter false (runTrace .WaitThenRestart ⟨.Enabled, false, 0, false, false⟩
        [(.key (some (.Internal .Quit)), true)]).1 = false := by
  have h := run_single_live_executor .WaitThenRestart
    ⟨.Enabled, false, 0, false, false⟩ [(.key (some (.Internal .Quit)), true)]
  exact (h.2 none (by decide)).1

end Bacon
